import Mathlib

/-!
Verification of the chord-chart pipeline of `build_chords.py` (Song-Printer).

The Python source is shallowly embedded below.  Lines of text are `String`s;
the character-level work is done on `List Char` (Python strings are sequences
of code points, which `String.data` models directly).  Python regular
expressions are embedded as hand-rolled matchers that reproduce the
backtracking behaviour of the concrete patterns appearing in the source on
all inputs (each matcher's doc comment records the pattern it implements).
Python floats appear only in threshold comparisons (`> 0.15`, `>= len*0.6`,
`>= len*0.5`, `> word_len*0.5`); these are modelled by exact integer
cross-multiplication, which agrees with the IEEE-double comparison for every
list/word length below 2^40.  Loops with non-structural control flow are
given a fuel argument equal to the input length, which each step strictly
decreases, so the fuel can never run out; this keeps every definition
kernel-computable.
-/

namespace SongPrinter

/-- Python `\w` (ASCII part): letters, digits, underscore. -/
def isWordChar (c : Char) : Bool := c.isAlphanum || c = '_'

/-- Python `\s` (ASCII part): the six ASCII whitespace characters. -/
def isPySpace (c : Char) : Bool :=
  c = ' ' || c = '\t' || c = '\n' || c = '\r' || c = '\x0b' || c = '\x0c'

/-- The character class `[A-G]` (a chord root letter). -/
def isRootLetter (c : Char) : Bool := 'A' ≤ c && c ≤ 'G'

/-- The character class `[#b]` (an accidental). -/
def isAccidental (c : Char) : Bool := c = '#' || c = 'b'

/-- Python `str.strip()` on one line (strip leading and trailing whitespace). -/
def pyStripL (l : List Char) : List Char :=
  ((l.dropWhile isPySpace).reverse.dropWhile isPySpace).reverse

/-- Python `str.rstrip()` (strip trailing whitespace only). -/
def pyRStripL (l : List Char) : List Char :=
  (l.reverse.dropWhile isPySpace).reverse

/-- Embeds `pyStripL` on a `String`. -/
def pyStripS (s : String) : String := ⟨pyStripL s.data⟩

/-- Python `token.rstrip('.,;:')`. -/
def rstripPunct (l : List Char) : List Char :=
  (l.reverse.dropWhile (fun c => c = '.' || c = ',' || c = ';' || c = ':')).reverse

/-- Python `str.split()` with no separator: split on runs of whitespace,
dropping empty pieces.  Fueled by the list length (each step consumes at
least one character). -/
def pySplitWsGo : Nat → List Char → List (List Char)
  | 0, _ => []
  | _ + 1, [] => []
  | fuel + 1, c :: rest =>
    if isPySpace c then pySplitWsGo fuel rest
    else (c :: rest.takeWhile (fun d => !isPySpace d)) ::
      pySplitWsGo fuel (rest.dropWhile (fun d => !isPySpace d))

/-- Python `str.split()` with no separator. -/
def pySplitWs (l : List Char) : List (List Char) := pySplitWsGo l.length l

/-- Python substring test `sub in hay`; the empty string is a substring of
everything. -/
def isSub (sub : List Char) : List Char → Bool
  | [] => sub.isEmpty
  | c :: rest => sub.isPrefixOf (c :: rest) || isSub sub rest

/-- Embeds `isSub` on `String`s: Python `sub in hay`. -/
def pyIn (sub hay : String) : Bool := isSub sub.data hay.data

/-!
## Chord token grammar

`CHORD_TOKEN_RE = ^[A-G][#b]?(m(?:aj)?|min|dim|aug|sus[24]?|add\d+)?\d*(\/(([A-G][#b]?)))?$`

The matcher below accepts exactly the strings this anchored regex accepts.
Backtracking notes: after the optional quality the only remaining parts are
`\d*` and the optional `/bass`, and `/` is not a digit, so consuming all
digits greedily is complete; `sus[24]?\d*` accepts exactly `sus` followed by
any digits, and `add\d+\d*` exactly `add` followed by at least one digit.
-/

/-- The optional slash-bass tail `(\/[A-G][#b]?)?$`. -/
def chordBass : List Char → Bool
  | [] => true
  | ['/', c] => isRootLetter c
  | ['/', c, a] => isRootLetter c && isAccidental a
  | _ => false

/-- Embeds `\d*(\/[A-G][#b]?)?$`: any digits, then the optional bass. -/
def chordDigitsBass (l : List Char) : Bool := chordBass (l.dropWhile Char.isDigit)

/-- The optional quality `(m(?:aj)?|min|dim|aug|sus[24]?|add\d+)?` followed by
`\d*` and the optional bass. -/
def chordQual (l : List Char) : Bool :=
  chordDigitsBass l ||
  (match l with
   | 'm' :: 'a' :: 'j' :: t => chordDigitsBass t
   | _ => false) ||
  (match l with
   | 'm' :: t => chordDigitsBass t
   | _ => false) ||
  (match l with
   | 'm' :: 'i' :: 'n' :: t => chordDigitsBass t
   | _ => false) ||
  (match l with
   | 'd' :: 'i' :: 'm' :: t => chordDigitsBass t
   | _ => false) ||
  (match l with
   | 'a' :: 'u' :: 'g' :: t => chordDigitsBass t
   | _ => false) ||
  (match l with
   | 's' :: 'u' :: 's' :: t => chordDigitsBass t
   | _ => false) ||
  (match l with
   | 'a' :: 'd' :: 'd' :: d :: t => d.isDigit && chordDigitsBass (d :: t)
   | _ => false)

/-- Full match of `CHORD_TOKEN_RE` (root, optional accidental, then the
quality/digits/bass tail). -/
def chordGrammar : List Char → Bool
  | [] => false
  | c :: rest =>
    isRootLetter c &&
      (chordQual rest ||
        (match rest with
         | a :: rest2 => isAccidental a && chordQual rest2
         | [] => false))

/-- Does the token end in the literal characters `bar`? -/
def endsWithBar (l : List Char) : Bool :=
  match l.reverse with
  | 'r' :: 'a' :: 'b' :: _ => true
  | _ => false

/-- Embeds `is_chord_token` (build_chords.py:69-77): strip a trailing `"bar"` when
the token is longer than 3 characters, strip a second trailing `"bar"`
unconditionally, then match `CHORD_TOKEN_RE`. -/
def is_chord_tokenL (token : List Char) : Bool :=
  let t1 := if endsWithBar token && decide (token.length > 3)
            then token.take (token.length - 3) else token
  let t2 := if endsWithBar t1 then t1.take (t1.length - 3) else t1
  chordGrammar t2

/-- Embeds `is_chord_token` on a `String`. -/
def is_chord_token (token : String) : Bool := is_chord_tokenL token.data

/-- Modelled from the claim (C2) wording: strip one trailing `"bar"` suffix. -/
def claimStripBar (t : List Char) : List Char :=
  if endsWithBar t then t.take (t.length - 3) else t

/-- The two-step `bar`-stripping that `is_chord_token` actually performs,
as a standalone function. -/
def codeStripBar (t : List Char) : List Char :=
  let t1 := if endsWithBar t && decide (t.length > 3) then t.take (t.length - 3) else t
  if endsWithBar t1 then t1.take (t1.length - 3) else t1

/-!
## Tab expansion and the `bar` collapse

`expand_tabs` (build_chords.py:115-128) and the substitution
`re.sub(r'\b([A-G][#b]?(?:m|maj|min|dim|aug|sus[24]?|add\d+|\d+)?)\s*bar\b', r'\1', s)`
used by `is_chord_line` and `extract_chords_with_positions`.
-/

/-- Embeds `expand_tabs` with the fixed `tab_width=4` used throughout the source. -/
def expandTabsGo : List Char → Nat → List Char
  | [], _ => []
  | '\t' :: rest, col =>
    List.replicate (4 - col % 4) ' ' ++ expandTabsGo rest (col + (4 - col % 4))
  | c :: rest, col => c :: expandTabsGo rest (col + 1)

/-- Embeds `expand_tabs` on a line. -/
def expand_tabs (l : List Char) : List Char := expandTabsGo l 0

/-- Embeds `\s*bar\b`: skip whitespace, require the literal `bar`, require a word
boundary after it; returns what follows the match. -/
def barTail (l : List Char) : Option (List Char) :=
  match l.dropWhile isPySpace with
  | 'b' :: 'a' :: 'r' :: rest =>
    match rest with
    | [] => some []
    | c :: _ => if isWordChar c then none else some rest
  | _ => none

/-- The optional quality group `(?:m|maj|min|dim|aug|sus[24]?|add\d+|\d+)?` of
the collapse pattern, followed by `\s*bar\b`.  Alternatives are tried in the
regex's order; each returns the quality characters consumed (part of the
capture) and the text after the whole match. -/
def collapseQual (q : List Char) : Option (List Char × List Char) :=
  (match q with
   | 'm' :: t => (barTail t).map (fun r => (['m'], r))
   | _ => none) <|>
  (match q with
   | 'm' :: 'a' :: 'j' :: t => (barTail t).map (fun r => (['m', 'a', 'j'], r))
   | _ => none) <|>
  (match q with
   | 'm' :: 'i' :: 'n' :: t => (barTail t).map (fun r => (['m', 'i', 'n'], r))
   | _ => none) <|>
  (match q with
   | 'd' :: 'i' :: 'm' :: t => (barTail t).map (fun r => (['d', 'i', 'm'], r))
   | _ => none) <|>
  (match q with
   | 'a' :: 'u' :: 'g' :: t => (barTail t).map (fun r => (['a', 'u', 'g'], r))
   | _ => none) <|>
  (match q with
   | 's' :: 'u' :: 's' :: t =>
     (match t with
      | d :: t2 =>
        if d = '2' || d = '4' then
          (barTail t2).map (fun r => (['s', 'u', 's', d], r)) <|>
            (barTail t).map (fun r => (['s', 'u', 's'], r))
        else (barTail t).map (fun r => (['s', 'u', 's'], r))
      | [] => (barTail t).map (fun r => (['s', 'u', 's'], r)))
   | _ => none) <|>
  (match q with
   | 'a' :: 'd' :: 'd' :: t =>
     let ds := t.takeWhile Char.isDigit
     if ds.isEmpty then none
     else (barTail (t.dropWhile Char.isDigit)).map
       (fun r => ('a' :: 'd' :: 'd' :: ds, r))
   | _ => none) <|>
  (let ds := q.takeWhile Char.isDigit
   if ds.isEmpty then none
   else (barTail (q.dropWhile Char.isDigit)).map (fun r => (ds, r))) <|>
  (barTail q).map (fun r => (([] : List Char), r))

/-- A single match attempt of the collapse pattern at the head of `l`
(the leading `\b` has already been checked by the caller).  Returns the
captured group (root, accidental, quality) and the text after the match. -/
def collapseTry (l : List Char) : Option (List Char × List Char) :=
  match l with
  | [] => none
  | c :: rest =>
    if isRootLetter c then
      (match rest with
       | a :: rest2 =>
         if isAccidental a then
           (collapseQual rest2).map (fun p => (c :: a :: p.1, p.2))
         else none
       | [] => none) <|>
      (collapseQual rest).map (fun p => (c :: p.1, p.2))
    else none

/-- Scanner for the collapse `re.sub`: try the pattern at every position
where a `\b` precedes (tracked by `prevWord`), replace each match with its
captured group, and continue after the match.  Each step consumes at least
one character, so fuel = length suffices. -/
def collapseBarGo : Nat → List Char → Bool → List Char
  | 0, l, _ => l
  | _ + 1, [], _ => []
  | fuel + 1, c :: rest, prevWord =>
    if prevWord then c :: collapseBarGo fuel rest (isWordChar c)
    else
      match collapseTry (c :: rest) with
      | some (cap, rem) => cap ++ collapseBarGo fuel rem true
      | none => c :: collapseBarGo fuel rest (isWordChar c)

/-- The collapse `re.sub` over a whole line. -/
def collapseBar (l : List Char) : List Char := collapseBarGo l.length l false

/-!
## Position extraction and word-boundary snapping
-/

/-- The scanning loop of `extract_chords_with_positions`
(build_chords.py:139-153): skip spaces, cut the next space-delimited token,
strip trailing `.,;:`, keep it with its start column when it is a chord
token.  Fueled by the list length. -/
def extractGo : Nat → List Char → Nat → List (Nat × String)
  | 0, _, _ => []
  | _ + 1, [], _ => []
  | fuel + 1, c :: rest, i =>
    if c = ' ' then extractGo fuel rest (i + 1)
    else
      let tok := c :: rest.takeWhile (fun d => d ≠ ' ')
      let tok2 := rstripPunct tok
      let tail := extractGo fuel (rest.dropWhile (fun d => d ≠ ' ')) (i + tok.length)
      if !tok2.isEmpty && is_chord_tokenL tok2 then (i, ⟨tok2⟩) :: tail else tail

/-- Embeds `extract_chords_with_positions` (build_chords.py:131-154): expand tabs,
collapse `X bar`, then scan for chord tokens with their columns. -/
def extract_chords_with_positions (chord_line : String) : List (Nat × String) :=
  let collapsed := collapseBar (expand_tabs chord_line.data)
  extractGo collapsed.length collapsed 0

/-- The `while word_start > 0 and lyric[word_start - 1] != ' '` walk of
`snap_to_word_boundary`. -/
def walkWordStart (lyric : List Char) : Nat → Nat
  | 0 => 0
  | p + 1 => if lyric.getD p ' ' ≠ ' ' then walkWordStart lyric p else p + 1

/-- Embeds `while i < len(lyric) and lyric[i] != ' '`: first index ≥ `p` that is a
space (or the end). -/
def walkNonSpace (lyric : List Char) (p : Nat) : Nat :=
  p + ((lyric.drop p).takeWhile (fun c => c ≠ ' ')).length

/-- Embeds `while i < len(lyric) and lyric[i] == ' '`: first index ≥ `p` that is not
a space (or the end). -/
def walkSpace (lyric : List Char) (p : Nat) : Nat :=
  p + ((lyric.drop p).takeWhile (fun c => c = ' ')).length

/-- Embeds `snap_to_word_boundary` (build_chords.py:157-200).  The float test
`dist_back > word_len * 0.5` is modelled as `2 * dist_back > word_len`. -/
def snap_to_word_boundary (pos : Nat) (lyric : List Char) : Nat :=
  if pos ≥ lyric.length then pos
  else if pos = 0 || lyric.getD (pos - 1) ' ' = ' ' then pos
  else
    let word_start := walkWordStart lyric pos
    let word_end := walkNonSpace lyric pos
    let next_word := walkSpace lyric word_end
    let dist_back := pos - word_start
    let dist_fwd := if next_word < lyric.length then next_word - pos else 999
    let word_len := word_end - word_start
    if word_len > 0 && 2 * dist_back > word_len && dist_fwd < 999 then next_word
    else if dist_fwd ≤ dist_back then next_word
    else word_start

/-!
## The line merger and its clean-up substitutions
-/

/-- One attempt of `re.sub(r'\s{2,}(\[[^\]]+\])\s*$', r' \1', s)` at the
current position: a maximal run of ≥ 2 whitespace characters, a bracket
group, then only whitespace to the end.  Returns the bracket group. -/
def trailTry (l : List Char) : Option (List Char) :=
  let w := l.takeWhile isPySpace
  if w.length ≥ 2 then
    match l.dropWhile isPySpace with
    | '[' :: t =>
      let inner := t.takeWhile (fun c => c ≠ ']')
      if inner.isEmpty then none
      else
        match t.dropWhile (fun c => c ≠ ']') with
        | ']' :: t2 => if t2.all isPySpace then some ('[' :: inner ++ [']']) else none
        | _ => none
    | _ => none
  else none

/-- Embeds `re.sub(r'\s{2,}(\[[^\]]+\])\s*$', r' \1', s)`: the leftmost match (it
necessarily extends to the end of the string) is replaced by a space and the
bracket group. -/
def trailSub : List Char → List Char
  | [] => []
  | c :: rest =>
    match trailTry (c :: rest) with
    | some g => ' ' :: g
    | none => c :: trailSub rest

/-- Embeds `re.sub(r'(\]) {2,}', r'] ', s)`: every `]` followed by a run of ≥ 2
spaces keeps a single space.  Fueled by the list length. -/
def gapSubGo : Nat → List Char → List Char
  | 0, l => l
  | _ + 1, [] => []
  | fuel + 1, c :: rest =>
    if c = ']' then
      if (rest.takeWhile (fun d => d = ' ')).length ≥ 2 then
        ']' :: ' ' :: gapSubGo fuel (rest.dropWhile (fun d => d = ' '))
      else ']' :: gapSubGo fuel rest
    else c :: gapSubGo fuel rest

/-- Embeds `re.sub(r'(\]) {2,}', r'] ', s)`. -/
def gapSub (l : List Char) : List Char := gapSubGo l.length l

/-- Embeds `merge_chord_and_lyric_lines` (build_chords.py:203-233). -/
def merge_chord_and_lyric_lines (chord_line lyric_line : String) : String :=
  let chords := extract_chords_with_positions chord_line
  if chords.isEmpty then pyStripS lyric_line
  else
    let lyric := pyRStripL (expand_tabs lyric_line.data)
    let max_pos := (chords.map Prod.fst).foldl max 0
    let lyric := if lyric.length ≤ max_pos
                 then lyric ++ List.replicate (max_pos + 1 - lyric.length) ' '
                 else lyric
    let snapped := chords.map (fun pc => (snap_to_word_boundary pc.1 lyric, pc.2))
    let result := snapped.reverse.foldl (fun res pc =>
      let insert_pos := min pc.1 res.length
      res.take insert_pos ++ ('[' :: pc.2.data ++ [']']) ++ res.drop insert_pos) lyric
    ⟨pyStripL (gapSub (trailSub result))⟩

/-!
## Line and file classifiers
-/

/-- Embeds `is_chord_line` (build_chords.py:80-91): trim, collapse `X bar`, split on
whitespace, and require at least one chord token and a chord fraction of at
least 60 % (`chord_count >= len(tokens) * 0.6`, modelled exactly as
`5 * chord_count ≥ 3 * len(tokens)`). -/
def is_chord_line (line : String) : Bool :=
  let trimmed := pyStripL line.data
  if trimmed.isEmpty then false
  else
    let tokens := pySplitWs (collapseBar trimmed)
    if tokens.isEmpty then false
    else
      let chord_count := (tokens.filter is_chord_tokenL).length
      chord_count > 0 && 5 * chord_count ≥ 3 * tokens.length

/-- One pass of `INLINE_CHORDPRO_RE` over a line: count the bracketed chord
annotations (`findall`) and simultaneously delete them (`sub('')`).  A group
`[X]` matches exactly when its bracket content `X` satisfies the chord
grammar (the inline pattern's body is the body of `CHORD_TOKEN_RE`).
Fueled by the list length. -/
def inlineScanGo : Nat → List Char → Nat × List Char
  | 0, l => (0, l)
  | _ + 1, [] => (0, [])
  | fuel + 1, '[' :: rest =>
    let content := rest.takeWhile (fun c => c ≠ ']')
    (match rest.dropWhile (fun c => c ≠ ']') with
     | ']' :: after =>
       if chordGrammar content then
         let p := inlineScanGo fuel after
         (p.1 + 1, p.2)
       else
         let p := inlineScanGo fuel rest
         (p.1, '[' :: p.2)
     | _ =>
       let p := inlineScanGo fuel rest
       (p.1, '[' :: p.2))
  | fuel + 1, c :: rest =>
    let p := inlineScanGo fuel rest
    (p.1, c :: p.2)

/-- Embeds `has_inline_chordpro` (build_chords.py:94-102): at least one inline
bracketed chord, and either some non-bracket text remains after removing
them, or there are at least two of them. -/
def has_inline_chordpro (line : String) : Bool :=
  let p := inlineScanGo line.data.length line.data
  if p.1 < 1 then false
  else p.1 ≥ 1 && (!(pyStripL p.2).isEmpty || p.1 ≥ 2)

/-- Embeds `is_chord_file` (build_chords.py:105-112): among non-empty lines, the
fraction that are chord lines or carry inline ChordPro must exceed 0.15
(`chord_lines / len(non_empty) > 0.15`, modelled exactly as
`20 * chord_lines > 3 * len(non_empty)`). -/
def is_chord_file (lines : List String) : Bool :=
  let non_empty := lines.filter (fun l => !(pyStripS l).isEmpty)
  if non_empty.isEmpty then false
  else
    let chord_lines :=
      (non_empty.filter (fun l => is_chord_line l || has_inline_chordpro l)).length
    20 * chord_lines > 3 * non_empty.length

/-!
## Section labels
-/

/-- Shared core of `SECTION_LABEL_RE = ^\[([^\]]+)\]\s*$` and
`SECTION_LABEL_LOOSE_RE = ^\[([^\]]+)\]`: a leading `[`, a non-empty run of
non-`]` characters, a `]`.  Returns the bracket content and what follows the
closing bracket; the strict pattern additionally requires the remainder to
be whitespace only. -/
def bracketContent (l : List Char) : Option (List Char × List Char) :=
  match l with
  | '[' :: rest =>
    let content := rest.takeWhile (fun c => c ≠ ']')
    (match rest.dropWhile (fun c => c ≠ ']') with
     | ']' :: after => if content.isEmpty then none else some (content, after)
     | _ => none)
  | _ => none

/-- Substring containment of `sub` in `hay` (Python `sub in hay`) for
`String`s, used by the keyword classification. -/
def strHasSub (hay sub : String) : Bool := isSub sub.data hay.data

/-- Lower-case a string (ASCII, which is all the keyword checks need). -/
def lowerS (s : String) : String := ⟨s.data.map Char.toLower⟩

/-- The keyword dispatch shared by the two bracketed branches of
`parse_section_label` (build_chords.py:311-329). -/
def classifyBracketLabel (label : String) : String × String :=
  let low := lowerS label
  if strHasSub low "verse" then ("verse", label)
  else if strHasSub low "chorus" then ("chorus", label)
  else if strHasSub low "bridge" then ("bridge", label)
  else if strHasSub low "tag" then ("tag", label)
  else if strHasSub low "intro" then ("intro", label)
  else if strHasSub low "outro" then ("outro", label)
  else if strHasSub low "pre" then ("pre-chorus", label)
  else ("section", label)

/-- The keyword dispatch of the unbracketed branch
(build_chords.py:283-300). -/
def classifyUnbracketedLabel (label : String) : String × String :=
  let low := lowerS label
  if strHasSub low "verse" then ("verse", label)
  else if strHasSub low "chorus" || strHasSub low "repeat" then ("chorus", label)
  else if strHasSub low "bridge" then ("bridge", label)
  else if strHasSub low "tag" then ("tag", label)
  else if strHasSub low "intro" then ("intro", label)
  else if strHasSub low "outro" || strHasSub low "ending" then ("outro", label)
  else if strHasSub low "pre" then ("pre-chorus", label)
  else if strHasSub low "interlude" || strHasSub low "turn" ||
          strHasSub low "instrumental" || strHasSub low "vamp" then ("section", label)
  else ("section", label)

/-- Embeds `\s*$` check: only whitespace remains. -/
def onlySpaces (l : List Char) : Bool := l.all isPySpace

/-- Tail `(\s+(Repeat|x\d+))?\s*$` of `UNBRACKETED_SECTION_RE`, on the
lower-cased line. -/
def unbrTail2 (l : List Char) : Bool :=
  onlySpaces l ||
  (let sp := l.takeWhile isPySpace
   if sp.isEmpty then false
   else
     match l.dropWhile isPySpace with
     | 'r' :: 'e' :: 'p' :: 'e' :: 'a' :: 't' :: r => onlySpaces r
     | 'x' :: r =>
       let ds := r.takeWhile Char.isDigit
       !ds.isEmpty && onlySpaces (r.dropWhile Char.isDigit)
     | _ => false)

/-- Tail `(\s+\d+)?(\s+(Repeat|x\d+))?\s*$` of `UNBRACKETED_SECTION_RE`. -/
def unbrTail (l : List Char) : Bool :=
  unbrTail2 l ||
  (let sp := l.takeWhile isPySpace
   if sp.isEmpty then false
   else
     let r := l.dropWhile isPySpace
     let ds := r.takeWhile Char.isDigit
     !ds.isEmpty && unbrTail2 (r.dropWhile Char.isDigit))

/-- The keyword alternation of `UNBRACKETED_SECTION_RE` followed by its
tail, on the lower-cased line. -/
def unbrKeyword (l : List Char) : Bool :=
  (match l with
   | 'i' :: 'n' :: 't' :: 'r' :: 'o' :: r => unbrTail r
   | _ => false) ||
  (match l with
   | 'v' :: 'e' :: 'r' :: 's' :: 'e' :: r => unbrTail r
   | _ => false) ||
  (match l with
   | 'c' :: 'h' :: 'o' :: 'r' :: 'u' :: 's' :: r => unbrTail r
   | _ => false) ||
  (match l with
   | 'b' :: 'r' :: 'i' :: 'd' :: 'g' :: 'e' :: r => unbrTail r
   | _ => false) ||
  (match l with
   | 't' :: 'a' :: 'g' :: r => unbrTail r
   | _ => false) ||
  (match l with
   | 'o' :: 'u' :: 't' :: 'r' :: 'o' :: r => unbrTail r
   | _ => false) ||
  (match l with
   | 'p' :: 'r' :: 'e' :: r =>
     (match r with
      | c :: r2 =>
        if isPySpace c || c = '-' then
          (match r2 with
           | 'c' :: 'h' :: 'o' :: 'r' :: 'u' :: 's' :: r3 => unbrTail r3
           | _ => false) ||
          (match r with
           | 'c' :: 'h' :: 'o' :: 'r' :: 'u' :: 's' :: r3 => unbrTail r3
           | _ => false)
        else
          (match r with
           | 'c' :: 'h' :: 'o' :: 'r' :: 'u' :: 's' :: r3 => unbrTail r3
           | _ => false)
      | [] => false)
   | _ => false) ||
  (match l with
   | 'i' :: 'n' :: 't' :: 'e' :: 'r' :: 'l' :: 'u' :: 'd' :: 'e' :: r => unbrTail r
   | _ => false) ||
  (match l with
   | 't' :: 'u' :: 'r' :: 'n' :: r => unbrTail r
   | _ => false) ||
  (match l with
   | 'i' :: 'n' :: 's' :: 't' :: 'r' :: 'u' :: 'm' :: 'e' :: 'n' :: 't' :: 'a' :: 'l' :: r => unbrTail r
   | _ => false) ||
  (match l with
   | 'e' :: 'n' :: 'd' :: 'i' :: 'n' :: 'g' :: r => unbrTail r
   | _ => false) ||
  (match l with
   | 'v' :: 'a' :: 'm' :: 'p' :: r => unbrTail r
   | _ => false)

/-- Embeds `UNBRACKETED_SECTION_RE` (build_chords.py:38-43), case-insensitive:
optional `Repeat`/`Final` prefix, a section keyword, optional number,
optional `Repeat`/`xN`, then end of line. -/
def matchUnbracketed (line : List Char) : Bool :=
  let low := line.map Char.toLower
  unbrKeyword low ||
  (match low with
   | 'r' :: 'e' :: 'p' :: 'e' :: 'a' :: 't' :: r =>
     !(r.takeWhile isPySpace).isEmpty && unbrKeyword (r.dropWhile isPySpace)
   | _ => false) ||
  (match low with
   | 'f' :: 'i' :: 'n' :: 'a' :: 'l' :: r =>
     !(r.takeWhile isPySpace).isEmpty && unbrKeyword (r.dropWhile isPySpace)
   | _ => false)

/-- The `is_chord_token(content) or is_chord_token(content.rstrip('.,;:'))`
test applied to a (stripped) bracket content. -/
def bracketIsChord (content : List Char) : Bool :=
  is_chord_tokenL content || is_chord_tokenL (rstripPunct content)

/-- Embeds `parse_section_label` (build_chords.py:263-329). -/
def parse_section_label (line : String) : Option (String × String) :=
  let trimmed := pyStripL line.data
  match bracketContent trimmed with
  | some (content, after) =>
    if onlySpaces after then
      -- SECTION_LABEL_RE matched exactly
      if bracketIsChord (pyStripL content) then none
      else some (classifyBracketLabel ⟨pyStripL content⟩)
    else
      -- only SECTION_LABEL_LOOSE_RE matched
      if bracketIsChord (pyStripL content) then none
      else if (pyStripL after).length > 10 then none
      else some (classifyBracketLabel ⟨pyStripL content⟩)
  | none =>
    if matchUnbracketed trimmed then some (classifyUnbracketedLabel ⟨trimmed⟩)
    else none

/-!
## Data model

The dictionaries `{'type': ..., 'label': ..., 'lines': [...]}` and
`{'title': ..., 'key': ..., 'sections': [...]}` built by `parse_chord_file`.
-/

structure Section where
  type : String
  label : String
  lines : List String
deriving DecidableEq, Repr

structure Song where
  title : String
  key : String
  sections : List Section
deriving DecidableEq, Repr

/-!
## Key detection
-/

/-- The key list of `NOTE_TO_INDEX` (build_chords.py:50-58): every name in
`NOTES_SHARP` and `NOTES_FLAT`. -/
def noteNames : List String :=
  ["C", "C#", "Db", "D", "D#", "Eb", "E", "F", "F#", "Gb", "G", "G#",
   "Ab", "A", "A#", "Bb", "B"]

/-- Embeds `re.finditer(r'\[([A-G][#b]?)', line)`: every `[` immediately followed
by a root letter and an optional accidental, scanned left to right without
overlap. -/
def findRootsGo : Nat → List Char → List String
  | 0, _ => []
  | _ + 1, [] => []
  | fuel + 1, '[' :: c :: rest =>
    if isRootLetter c then
      match rest with
      | a :: rest2 =>
        if isAccidental a then (⟨[c, a]⟩ : String) :: findRootsGo fuel rest2
        else (⟨[c]⟩ : String) :: findRootsGo fuel rest
      | [] => [⟨[c]⟩]
    else findRootsGo fuel (c :: rest)
  | _ + 1, ['['] => []
  | fuel + 1, _ :: rest => findRootsGo fuel rest

/-- Embeds `re.finditer(r'\[([A-G][#b]?', ...)` over a line (see `findRootsGo`). -/
def findRoots (l : List Char) : List String := findRootsGo l.length l

/-- The roots `detect_key` tallies: every regex hit whose name is a key of
`NOTE_TO_INDEX`, in scan order across all sections and lines. -/
def collectRoots (sections : List Section) : List String :=
  (sections.flatMap (fun s => s.lines)).flatMap
    (fun line => (findRoots line.data).filter (fun r => noteNames.contains r))

/-- Model of `Counter.most_common(1)`: scan the tally sequence keeping the
element whose total count is strictly greater than the current best's.
Because counts are totals over the whole sequence, this returns the
first-inserted key of maximal count — exactly the tie behaviour of
`Counter.most_common` (stable heapq.nlargest over dict insertion order). -/
def mcfGo (l : List String) : Option String → List String → Option String
  | best, [] => best
  | none, x :: rest => mcfGo l (some x) rest
  | some b, x :: rest =>
    mcfGo l (if l.count x > l.count b then some x else some b) rest

/-- The first-inserted element of maximal count (see `mcfGo`). -/
def most_common_first (l : List String) : Option String := mcfGo l none l

/-- Embeds `detect_key` (build_chords.py:249-260). -/
def detect_key (sections : List Section) : String :=
  match most_common_first (collectRoots sections) with
  | some r => r
  | none => "C"

/-!
## Document parsing (`parse_chord_file`)
-/

/-- Embeds `str.replace('\r\n', '\n')`: collapse CR-LF pairs, scanning left to
right. -/
def normCRLF : List Char → List Char
  | [] => []
  | '\r' :: '\n' :: rest => '\n' :: normCRLF rest
  | c :: rest => c :: normCRLF rest

/-- Embeds `normalize_line_breaks` (build_chords.py:61-66): U+2028/U+2029 to `\n`,
then `\r\n` to `\n`, then lone `\r` to `\n`. -/
def normalize_line_breaks (text : String) : List Char :=
  (normCRLF (text.data.map (fun c =>
    if c = '\u2028' || c = '\u2029' then '\n' else c))).map
    (fun c => if c = '\r' then '\n' else c)

/-- Embeds `text.split('\n')` with a reversed-line accumulator. -/
def splitLinesGo : List Char → List Char → List String
  | [], cur => [⟨cur.reverse⟩]
  | '\n' :: rest, cur => (⟨cur.reverse⟩ : String) :: splitLinesGo rest []
  | c :: rest, cur => splitLinesGo rest (c :: cur)

/-- Embeds `text.split('\n')`. -/
def splitLines (l : List Char) : List String := splitLinesGo l []

/-- Embeds `is_date_header` (build_chords.py:236-237):
`re.match(r'^\s*Sunday\b', line, re.IGNORECASE)`. -/
def is_date_header (line : String) : Bool :=
  match (line.data.dropWhile isPySpace).map Char.toLower with
  | 's' :: 'u' :: 'n' :: 'd' :: 'a' :: 'y' :: rest =>
    (match rest with
     | [] => true
     | c :: _ => !isWordChar c)
  | _ => false

/-- Strip one lower-case extension suffix `.odt`/`.doc`/`.docx`/`.pages`
(the patterns are mutually exclusive as suffixes, and the `$` anchor means
`re.sub` can replace at most one). -/
def stripExt (l : List Char) : List Char :=
  let low := l.map Char.toLower
  if ['.', 'o', 'd', 't'].isSuffixOf low then l.take (l.length - 4)
  else if ['.', 'd', 'o', 'c', 'x'].isSuffixOf low then l.take (l.length - 5)
  else if ['.', 'd', 'o', 'c'].isSuffixOf low then l.take (l.length - 4)
  else if ['.', 'p', 'a', 'g', 'e', 's'].isSuffixOf low then l.take (l.length - 6)
  else l

/-- One attempt of `re.sub(r'\s*-?\s*[Cc]hords?\s*$', '', name)` at the
current position: whitespace, an optional dash, whitespace, `chord` or
`Chord`, an optional `s`, then whitespace to the end. -/
def chordsSuffixTry (l : List Char) : Bool :=
  let r1 := l.dropWhile isPySpace
  let r2 := match r1 with
            | '-' :: t => t.dropWhile isPySpace
            | _ => r1
  match r2 with
  | c :: 'h' :: 'o' :: 'r' :: 'd' :: rest =>
    (c = 'C' || c = 'c') &&
      (match rest with
       | 's' :: rest2 => onlySpaces rest2 || onlySpaces rest
       | _ => onlySpaces rest)
  | _ => false

/-- Embeds `re.sub(r'\s*-?\s*[Cc]hords?\s*$', '', name)`: delete the suffix from
the leftmost position where it matches through to the end. -/
def stripChordsSuffix : List Char → List Char
  | [] => []
  | c :: rest =>
    if chordsSuffixTry (c :: rest) then []
    else c :: stripChordsSuffix rest

/-- Embeds `re.sub(r'[-_]+', ' ', name)`: replace each run of dashes/underscores
with one space.  Fueled by the list length. -/
def dashesToSpaceGo : Nat → List Char → List Char
  | 0, l => l
  | _ + 1, [] => []
  | fuel + 1, c :: rest =>
    if c = '-' || c = '_' then
      ' ' :: dashesToSpaceGo fuel (rest.dropWhile (fun d => d = '-' || d = '_'))
    else c :: dashesToSpaceGo fuel rest

/-- Embeds `re.sub(r'\s+', ' ', name)`: collapse whitespace runs to single spaces.
Fueled by the list length. -/
def wsToSpaceGo : Nat → List Char → List Char
  | 0, l => l
  | _ + 1, [] => []
  | fuel + 1, c :: rest =>
    if isPySpace c then ' ' :: wsToSpaceGo fuel (rest.dropWhile isPySpace)
    else c :: wsToSpaceGo fuel rest

/-- Embeds `clean_filename` (build_chords.py:240-246). -/
def clean_filename (filename : String) : String :=
  let n1 := stripExt filename.data
  let n2 := stripChordsSuffix n1
  let n3 := dashesToSpaceGo n2.length n2
  ⟨pyStripL (wsToSpaceGo n3.length n3)⟩

/-- The title-extraction loop (build_chords.py:357-376).  Returns the title
and the remaining lines after it, or `none` when no candidate is accepted
(in which case the body is the whole line list, `title_end = 0`). -/
def findTitleGo : List String → Bool → Option (String × List String)
  | [], _ => none
  | line :: rest, saw =>
    let trimmed := pyStripS line
    if trimmed = "" then findTitleGo rest saw
    else if (parse_section_label trimmed).isSome then findTitleGo rest true
    else if is_chord_line line then findTitleGo rest true
    else if saw then none
    else if trimmed.length < 80 then some (trimmed, rest)
    else findTitleGo rest saw

/-- Embeds `^[A-Z][a-z]+`: an upper-case letter, then at least one lower-case
letter; returns the rest. -/
def upperLowerChunk : List Char → Option (List Char)
  | [] => none
  | c :: rest =>
    if c.isUpper then
      let ls := rest.takeWhile Char.isLower
      if ls.isEmpty then none else some (rest.dropWhile Char.isLower)
    else none

/-- Embeds `\s+\d{4}` as a prefix of `l`. -/
def spacesThen4Digits (l : List Char) : Bool :=
  !(l.takeWhile isPySpace).isEmpty &&
    (match l.dropWhile isPySpace with
     | a :: b :: c :: d :: _ => a.isDigit && b.isDigit && c.isDigit && d.isDigit
     | _ => false)

/-- Embeds `re.match(r'^[A-Z][a-z]+([-\s][A-Z][a-z]+)?\s+\d{4}', t)` — the
"May 2025" / "May-June 2025" subtitle form. -/
def monthYearLike (t : List Char) : Bool :=
  match upperLowerChunk t with
  | none => false
  | some r =>
    (match r with
     | c :: r2 =>
       if isPySpace c || c = '-' then
         (match upperLowerChunk r2 with
          | some r3 => spacesThen4Digits r3
          | none => false) || spacesThen4Digits r
       else spacesThen4Digits r
     | [] => false)

/-- Embeds `re.match(r'^[A-Z]\.\s', t)` — the "J. Hobbs" subtitle form. -/
def initialNameLike (t : List Char) : Bool :=
  match t with
  | c :: '.' :: s :: _ => c.isUpper && isPySpace s
  | _ => false

/-- Embeds `re.match(r'^[A-Z][a-z]+\s+[A-Z][a-z]+$', t)` — the two-word-name
subtitle form. -/
def twoWordNameLike (t : List Char) : Bool :=
  match upperLowerChunk t with
  | none => false
  | some r =>
    !(r.takeWhile isPySpace).isEmpty &&
      (match upperLowerChunk (r.dropWhile isPySpace) with
       | some [] => true
       | _ => false)

/-- Embeds `re.match(r'^\d+[a-z]?$', lower)` — the "1c" capo-shorthand form. -/
def capoShorthandLike (low : List Char) : Bool :=
  let ds := low.takeWhile Char.isDigit
  !ds.isEmpty &&
    (match low.dropWhile Char.isDigit with
     | [] => true
     | [c] => c.isLower
     | _ => false)

/-- Embeds `re.match(r'^(capo|key\s|by\s)', lower)`. -/
def capoKeyByLike (low : List Char) : Bool :=
  match low with
  | 'c' :: 'a' :: 'p' :: 'o' :: _ => true
  | 'k' :: 'e' :: 'y' :: c :: _ => isPySpace c
  | 'b' :: 'y' :: c :: _ => isPySpace c
  | _ => false

/-- The subtitle test of build_chords.py:393-401, applied to a line whose
strip `trimmed` is non-empty. -/
def subtitleLike (line : String) : Bool :=
  let trimmed := pyStripL line.data
  let low := trimmed.map Char.toLower
  capoKeyByLike low ||
  monthYearLike trimmed ||
  initialNameLike trimmed ||
  twoWordNameLike trimmed ||
  capoShorthandLike low ||
  ((pySplitWs trimmed).length ≤ 4 && !is_chord_line line &&
    (parse_section_label ⟨trimmed⟩).isNone &&
    (match trimmed with
     | c :: _ => c.isUpper
     | [] => false) &&
    trimmed.any Char.isDigit)

/-- The subtitle-skipping loop (build_chords.py:387-404). -/
def skipSubtitles : List String → List String
  | [] => []
  | line :: rest =>
    if pyStripS line = "" then skipSubtitles rest
    else if subtitleLike line then skipSubtitles rest
    else line :: rest

/-- Embeds `re.split(r'\t+', line, maxsplit=1)`: the text before the first tab run
and the text after it, when a tab exists. -/
def splitTabsOnce (l : List Char) : Option (List Char × List Char) :=
  if l.contains '\t' then
    some (l.takeWhile (fun c => c ≠ '\t'),
      (l.dropWhile (fun c => c ≠ '\t')).dropWhile (fun c => c = '\t'))
  else none

/-- A match attempt of `re.sub(r'\b([A-G][#b]?)\s+bar\b', r'\1', s)` at the
head of `l` (leading `\b` checked by the caller): root, optional accidental,
at least one whitespace character, `bar`, word boundary. -/
def simpleBarTry (l : List Char) : Option (List Char × List Char) :=
  match l with
  | [] => none
  | c :: rest =>
    if isRootLetter c then
      let finish : List Char → Option (List Char) := fun t =>
        if (t.takeWhile isPySpace).isEmpty then none
        else match t.dropWhile isPySpace with
             | 'b' :: 'a' :: 'r' :: r =>
               (match r with
                | [] => some []
                | d :: _ => if isWordChar d then none else some r)
             | _ => none
      (match rest with
       | a :: rest2 =>
         if isAccidental a then (finish rest2).map (fun r => ([c, a], r)) else none
       | [] => none) <|>
      (finish rest).map (fun r => ([c], r))
    else none

/-- Scanner for `re.sub(r'\b([A-G][#b]?)\s+bar\b', r'\1', s)`
(build_chords.py:525). -/
def simpleBarGo : Nat → List Char → Bool → List Char
  | 0, l, _ => l
  | _ + 1, [], _ => []
  | fuel + 1, c :: rest, prevWord =>
    if prevWord then c :: simpleBarGo fuel rest (isWordChar c)
    else
      match simpleBarTry (c :: rest) with
      | some (cap, rem) => cap ++ simpleBarGo fuel rem true
      | none => c :: simpleBarGo fuel rest (isWordChar c)

/-- Embeds `extract_inline_chords` (build_chords.py:508-534): a tab-separated line
whose part before the tab is at least half chord tokens
(`chord_count >= len(tokens) * 0.5`, modelled as `2 * chord_count ≥ len`)
becomes the chords (bracketed, concatenated) prefixed to the lyric part. -/
def extract_inline_chords (line : String) : Option String :=
  if pyStripS line = "" then none
  else
    match splitTabsOnce line.data with
    | none => none
    | some (before, after) =>
      let before_tab := pyStripL before
      let after_tab := pyStripL after
      if !before_tab.isEmpty && !after_tab.isEmpty then
        let collapsed := simpleBarGo before_tab.length before_tab false
        let tokens := pySplitWs collapsed
        let chord_count := (tokens.filter is_chord_tokenL).length
        if !tokens.isEmpty && 2 * chord_count ≥ tokens.length then
          let chords := tokens.filter is_chord_tokenL
          some ⟨(chords.flatMap (fun c => '[' :: c ++ [']'])) ++ after_tab⟩
        else none
      else none

/-- Embeds `' '.join(f'[{c}]' for _, c in chords)`. -/
def joinChords : List (Nat × String) → String
  | [] => ""
  | [pc] => ⟨'[' :: pc.2.data ++ [']']⟩
  | pc :: rest => (⟨'[' :: pc.2.data ++ [']', ' ']⟩ : String) ++ joinChords rest

/-- The chord-line-with-no-lyric step of the body scan
(build_chords.py:452-457). -/
def standaloneChordStep (cur : Section) (line : String) : Section :=
  let chords := extract_chords_with_positions line
  if chords.isEmpty then cur
  else { cur with lines := cur.lines ++ [joinChords chords] }

/-- The body-scanning state machine of `parse_chord_file`
(build_chords.py:407-473).  Fueled by the number of remaining lines, which
every step strictly decreases. -/
def bodyLoop : Nat → Section → List Section → List String → List Section × Section
  | 0, cur, acc, _ => (acc, cur)
  | _ + 1, cur, acc, [] => (acc, cur)
  | fuel + 1, cur, acc, line :: rest =>
    let trimmed := pyStripS line
    if trimmed = "" then
      bodyLoop fuel
        (if cur.lines.isEmpty then cur else { cur with lines := cur.lines ++ [""] })
        acc rest
    else
      match parse_section_label trimmed with
      | some tl =>
        bodyLoop fuel ⟨tl.1, tl.2, []⟩
          (if cur.lines.isEmpty then acc else acc ++ [cur]) rest
      | none =>
        if is_chord_line line then
          match rest.dropWhile (fun l => pyStripS l = "") with
          | lyric :: rest2 =>
            if !is_chord_line lyric && (parse_section_label (pyStripS lyric)).isNone then
              bodyLoop fuel
                { cur with lines := cur.lines ++ [merge_chord_and_lyric_lines line lyric] }
                acc rest2
            else bodyLoop fuel (standaloneChordStep cur line) acc rest
          | [] => bodyLoop fuel (standaloneChordStep cur line) acc rest
        else if has_inline_chordpro line then
          bodyLoop fuel { cur with lines := cur.lines ++ [trimmed] } acc rest
        else
          match extract_inline_chords line with
          | some s => bodyLoop fuel { cur with lines := cur.lines ++ [s] } acc rest
          | none => bodyLoop fuel { cur with lines := cur.lines ++ [trimmed] } acc rest

/-- Drop trailing blank markers (`while lines and lines[-1] == '': pop`). -/
def dropTrailingBlanks (l : List String) : List String :=
  (l.reverse.dropWhile (fun s => s = "")).reverse

/-- One step of the blank-collapsing loop of build_chords.py:486-490: keep
`line` unless it is blank and the last kept line is blank. -/
def collapseStep (cleaned : List String) (line : String) : List String :=
  if line = "" && !cleaned.isEmpty && cleaned.getLast? = some "" then cleaned
  else cleaned ++ [line]

/-- The blank-collapsing loop of build_chords.py:486-490. -/
def collapseBlanks (l : List String) : List String := l.foldl collapseStep []

/-- The per-section clean-up of build_chords.py:480-491: trim trailing
blanks, trim leading blanks, collapse consecutive blanks. -/
def cleanLines (l : List String) : List String :=
  collapseBlanks ((dropTrailingBlanks l).dropWhile (fun s => s = ""))

/-- Embeds `cleanLines` on a section. -/
def cleanSection (s : Section) : Section := { s with lines := cleanLines s.lines }

/-- The save-last-section step of build_chords.py:476-477. -/
def flushLast (secs : List Section) (lastSec : Section) : List Section :=
  if lastSec.lines.isEmpty then secs else secs ++ [lastSec]

/-- The tail of `parse_chord_file` (build_chords.py:476-505): flush the last
section, clean every section, drop empty ones, return `None` when nothing
is left, otherwise detect the key and build the song. -/
def finalize (title : String) (secs : List Section) (lastSec : Section) : Option Song :=
  let final := ((flushLast secs lastSec).map cleanSection).filter (fun s => !s.lines.isEmpty)
  if final.isEmpty then none
  else some ⟨title, detect_key final, final⟩

/-- Embeds `parse_chord_file` (build_chords.py:332-505). -/
def parse_chord_file (text filename : String) : Option Song :=
  let raw_lines := splitLines (normalize_line_breaks text)
  if !is_chord_file raw_lines then none
  else
    let lines := raw_lines.dropWhile (fun l => pyStripS l = "" || is_date_header l)
    let tb := match findTitleGo lines false with
              | some p => p
              | none => (clean_filename filename, lines)
    let body := skipSubtitles (tb.2.dropWhile (fun l => pyStripS l = ""))
    let p := bodyLoop body.length ⟨"verse", "", []⟩ [] body
    finalize tb.1 p.1 p.2

/-!
## Catalog reconciliation (the pure core of `main`, build_chords.py:559-630)

The file enumeration, the external `textutil` conversion and the JS
serialization are I/O collaborators; the reconciliation below is modelled
over an already-loaded existing catalog and the list of songs the per-file
loop successfully parsed, in order.
-/

/-- Embeds `normalize_title` (build_chords.py:554-556):
`re.sub(r'[^a-z0-9]', '', title.lower())`. -/
def normalize_title (title : String) : String :=
  ⟨(title.data.map Char.toLower).filter
    (fun c => ('a' ≤ c && c ≤ 'z') || ('0' ≤ c && c ≤ '9'))⟩

/-- A Python `set` built by inserting elements in order (used for
`existing_titles` and `force_songs`; only membership, `any`, and `discard`
are performed on them, so a first-insertion-ordered duplicate-free list is
a faithful model). -/
def setOf (l : List String) : List String :=
  l.foldl (fun acc x => if x ∈ acc then acc else acc ++ [x]) []

/-- The duplicate test of the per-file loop (build_chords.py:616-618):
`nt in existing_titles or any(nt in et or et in nt for et in existing_titles)`. -/
def matchFound (nt : String) (existing_titles : List String) : Bool :=
  existing_titles.contains nt ||
    existing_titles.any (fun et => pyIn nt et || pyIn et nt)

/-- The `--force-song` removal loop (build_chords.py:586-595): drop every
existing song whose normalized title contains or is contained in some
normalized fragment, discarding its title from the title set. -/
def applyForce (force_songs : List String) (existing_songs : List Song)
    (titles0 : List String) : List Song × List String :=
  existing_songs.foldl (fun st s =>
    let nt := normalize_title s.title
    if force_songs.any (fun fs => pyIn fs nt || pyIn nt fs) then
      (st.1, st.2.filter (fun t => t ≠ nt))
    else (st.1 ++ [s], st.2)) ([], titles0)

/-- The preserved-songs component of `applyForce`. -/
def forceKept (force_songs : List String) (existing_songs : List Song)
    (titles0 : List String) : List Song :=
  (applyForce force_songs existing_songs titles0).1

/-- The new-song accumulation of the per-file loop (build_chords.py:612-622):
keep each parsed song unless its normalized title matches the (fixed)
existing-title set. -/
def collectNew (existing_titles : List String) (parsed : List Song) : List Song :=
  parsed.foldl (fun acc song =>
    if matchFound (normalize_title song.title) existing_titles then acc
    else acc ++ [song]) []

/-- Python string comparison: lexicographic on code points. -/
def lexLe : List Char → List Char → Bool
  | [], _ => true
  | _ :: _, [] => false
  | a :: as_, b :: bs => if a = b then lexLe as_ bs else decide (a < b)

/-- The sort key `s['title'].lower()` comparison. -/
def titleLe (a b : Song) : Bool :=
  lexLe (a.title.data.map Char.toLower) (b.title.data.map Char.toLower)

/-- Stable insertion of a song into an already-sorted list (a song moves
past every entry whose key is ≤ its own, so equal keys keep their original
relative order — the behaviour of Python's stable `list.sort`). -/
def insertSorted (x : Song) : List Song → List Song
  | [] => [x]
  | y :: ys => if titleLe y x then y :: insertSorted x ys else x :: y :: ys

/-- Embeds `all_songs.sort(key=lambda s: s['title'].lower())`: a stable ascending
sort. -/
def sortByTitle (l : List Song) : List Song := l.foldl (fun acc x => insertSorted x acc) []

/-- The reconciliation pipeline of `main` (build_chords.py:559-630), given
the parsed command-line state and the parsed songs: discard the existing
catalog under `--force`, apply the `--force-song` removals, collect
non-duplicate new songs, and sort the union by lower-cased title. -/
def mainReconcile (force_all : Bool) (force_song_args : List String)
    (existing0 parsed : List Song) : List Song :=
  let force_songs := setOf (force_song_args.map normalize_title)
  let existing_songs := if force_all then [] else existing0
  let existing_titles := setOf (existing_songs.map (fun s => normalize_title s.title))
  let st := if !force_all && !existing_songs.isEmpty && !force_songs.isEmpty then
              applyForce force_songs existing_songs existing_titles
            else (existing_songs, existing_titles)
  sortByTitle (st.1 ++ collectNew st.2 parsed)

/-!
## Claim-side definitions and concrete inputs
-/

/-- Modelled from the claim (C4) wording: the root pitch — letter plus
optional accidental — of a bracket content. -/
def claimRootOf (content : List Char) : String :=
  match content with
  | [] => ""
  | [c] => ⟨[c]⟩
  | c :: a :: _ => if isAccidental a then ⟨[c, a]⟩ else ⟨[c]⟩

/-- Modelled from the claim (C4) wording: every bracketed chord of a line —
each `[X]` group whose content `X` matches the chord grammar exactly —
yielding its root, in scan order.  Fueled by the list length. -/
def claimBracketRootsGo : Nat → List Char → List String
  | 0, _ => []
  | _ + 1, [] => []
  | fuel + 1, '[' :: rest =>
    let content := rest.takeWhile (fun c => c ≠ ']')
    (match rest.dropWhile (fun c => c ≠ ']') with
     | ']' :: after =>
       if chordGrammar content then claimRootOf content :: claimBracketRootsGo fuel after
       else claimBracketRootsGo fuel rest
     | _ => claimBracketRootsGo fuel rest)
  | fuel + 1, _ :: rest => claimBracketRootsGo fuel rest

/-- Modelled from the claim (C4) wording: tally every bracketed chord by its
root pitch and report the most common root, first seen winning ties,
defaulting to `"C"`. -/
def claimDetectKey (sections : List Section) : String :=
  let roots := (sections.flatMap (fun s => s.lines)).flatMap
    (fun line => claimBracketRootsGo line.data.length line.data)
  match most_common_first roots with
  | some r => r
  | none => "C"

/-- The duplicate test as the spec states it: the fresh song's normalized
title exactly equals, contains, or is contained by the normalized title of
some existing entry. -/
def dupAgainstExisting (ex : List Song) (s : Song) : Bool :=
  ex.any (fun e =>
    normalize_title s.title = normalize_title e.title ||
    pyIn (normalize_title s.title) (normalize_title e.title) ||
    pyIn (normalize_title e.title) (normalize_title s.title))

/-- The fragment test of `--force-song` as the spec states it: the existing
entry's normalized title contains or is contained by some supplied
fragment's normalized title. -/
def fragMatches (fragments : List String) (e : Song) : Bool :=
  fragments.any (fun f =>
    pyIn (normalize_title f) (normalize_title e.title) ||
    pyIn (normalize_title e.title) (normalize_title f))

/-- The first element of maximal count in a tally sequence is what
`Counter.most_common(1)` reports (see `mcfGo`). -/
def maxCnt (l : List String) : Nat := (l.map l.count).foldr max 0

/-- A 20-non-empty-line document with exactly 3 chord lines: exactly 15 %. -/
def doc15 : List String :=
  ["C G Am", "C G Am", "C G Am",
   "hello world again", "hello world again", "hello world again",
   "hello world again", "hello world again", "hello world again",
   "hello world again", "hello world again", "hello world again",
   "hello world again", "hello world again", "hello world again",
   "hello world again", "hello world again", "hello world again",
   "hello world again", "hello world again"]

/-- Embeds `doc15` joined by newlines, as document text. -/
def text15 : String := String.intercalate "\n" doc15

/-- A 25-non-empty-line document with exactly 4 chord lines: exactly 16 %. -/
def doc16 : List String :=
  ["C G Am", "C G Am", "C G Am", "C G Am",
   "hello world again", "hello world again", "hello world again",
   "hello world again", "hello world again", "hello world again",
   "hello world again", "hello world again", "hello world again",
   "hello world again", "hello world again", "hello world again",
   "hello world again", "hello world again", "hello world again",
   "hello world again", "hello world again", "hello world again",
   "hello world again", "hello world again", "hello world again"]

/-- The section list of a song whose bracketed chords are C, G, C, Am, C. -/
def keyExampleSections : List Section :=
  [⟨"verse", "", ["[C]word [G]word", "[C]word [Am]word [C]word"]⟩]

/-- The section list separating `detect_key` from the claim's reading: the
bracketed chords are Cb, Cb, D (so the claim tallies Cb twice), but the
code skips Cb (not a `NOTE_TO_INDEX` key) and counts the B of `[Banana]`. -/
def cexKeySections : List Section :=
  [⟨"verse", "", ["[Cb] [Cb] [Banana] [D]"]⟩]

/-- A minimal chord chart that parses to a song (used as concrete witness
input for the parser invariants). -/
def witnessText : String := "Amazing Song\n\nC G Am\nla la la"

/-!
## Helper lemmas
-/

theorem isSub_nil (hay : List Char) : isSub [] hay = true := by
  cases hay <;> simp [isSub, List.isPrefixOf]

theorem pyIn_empty (hay : String) : pyIn "" hay = true := isSub_nil hay.data

theorem head?_dropWhile {α : Type} (p : α → Bool) :
    ∀ (l : List α) (a : α), (l.dropWhile p).head? = some a → p a = false := by
  intro l
  induction l with
  | nil => intro a h; simp [List.dropWhile] at h
  | cons x xs ih =>
    intro a h
    by_cases hx : p x
    · exact ih a (by simpa [List.dropWhile, hx] using h)
    · rw [List.dropWhile_cons_of_neg hx] at h
      cases h
      simpa using hx

theorem getLast?_dropWhile {α : Type} (p : α → Bool) :
    ∀ l : List α, l.dropWhile p ≠ [] → (l.dropWhile p).getLast? = l.getLast? := by
  intro l
  induction l with
  | nil => intro h; simp [List.dropWhile] at h
  | cons x xs ih =>
    intro h
    by_cases hx : p x
    · rw [List.dropWhile_cons_of_pos hx] at h ⊢
      rw [ih h]
      have hxs : xs ≠ [] := by
        intro he; rw [he] at h; simp [List.dropWhile] at h
      cases xs with
      | nil => exact absurd rfl hxs
      | cons y ys => simp [List.getLast?_cons_cons]
    · rw [List.dropWhile_cons_of_neg hx]

theorem pyStripL_of_all_space (l : List Char) (h : l.all isPySpace = true) :
    pyStripL l = [] := by
  have h1 : l.dropWhile isPySpace = [] := by
    rw [List.dropWhile_eq_nil_iff]
    intro x hx
    exact List.all_eq_true.mp h x hx
  simp [pyStripL, h1, List.dropWhile]

theorem mem_setOf_aux (l : List String) :
    ∀ (acc : List String) (x : String),
      (x ∈ l.foldl (fun a y => if y ∈ a then a else a ++ [y]) acc) ↔ x ∈ acc ∨ x ∈ l := by
  induction l with
  | nil => intro acc x; simp
  | cons y l ih =>
    intro acc x
    simp only [List.foldl_cons]
    rw [ih]
    by_cases hy : y ∈ acc
    · simp only [if_pos hy, List.mem_cons]
      constructor
      · rintro (h | h)
        · exact Or.inl h
        · exact Or.inr (Or.inr h)
      · rintro (h | h | h)
        · exact Or.inl h
        · exact Or.inl (h ▸ hy)
        · exact Or.inr h
    · simp only [if_neg hy, List.mem_append, List.mem_singleton, List.mem_cons]
      tauto

theorem mem_setOf (l : List String) (x : String) : x ∈ setOf l ↔ x ∈ l := by
  simpa using mem_setOf_aux l [] x

theorem any_setOf (l : List String) (p : String → Bool) :
    (setOf l).any p = l.any p := by
  rw [Bool.eq_iff_iff]
  simp only [List.any_eq_true]
  constructor
  · rintro ⟨x, hx, hp⟩; exact ⟨x, (mem_setOf l x).mp hx, hp⟩
  · rintro ⟨x, hx, hp⟩; exact ⟨x, (mem_setOf l x).mpr hx, hp⟩

theorem setOf_ne_nil (l : List String) (h : l ≠ []) : setOf l ≠ [] := by
  cases l with
  | nil => exact absurd rfl h
  | cons x xs =>
    intro he
    have : x ∈ setOf (x :: xs) := (mem_setOf _ _).mpr (List.mem_cons_self x xs)
    rw [he] at this
    exact absurd this (List.not_mem_nil x)

theorem contains_iff_mem_str (l : List String) (x : String) :
    l.contains x = true ↔ x ∈ l := by
  simp [List.contains, List.elem_iff]

/-!
## C1 — word-boundary snapping and the merge example
-/

/-- C1: on the chord line with `C`, `G`, `Am` at columns 0, 8, 16 and the
lyric `"Amazing grace how sweet"`, the merge is exactly
`"[C]Amazing [G]grace how [Am]sweet"`; the chord at column 16 (inside the
word spanning 14–17) snaps forward to column 18; and a chord at column 0,
or whose preceding lyric character is a space, keeps its column. -/
theorem C1_snap_and_merge (pos : Nat) (lyric : List Char)
    (h : pos = 0 ∨ lyric.getD (pos - 1) ' ' = ' ') :
    merge_chord_and_lyric_lines "C       G       Am" "Amazing grace how sweet" =
        "[C]Amazing [G]grace how [Am]sweet" ∧
      snap_to_word_boundary 16 "Amazing grace how sweet".data = 18 ∧
      snap_to_word_boundary pos lyric = pos := by
  refine ⟨by decide, by decide, ?_⟩
  unfold snap_to_word_boundary
  by_cases hlen : pos ≥ lyric.length
  · rw [if_pos hlen]
  · rw [if_neg hlen]
    have hc : (pos = 0 || lyric.getD (pos - 1) ' ' = ' ') = true := by
      simp only [Bool.or_eq_true, decide_eq_true_eq]
      exact h
    rw [if_pos hc]

/-- C1 witness: the theorem applied at column 0 of the empty lyric. -/
theorem C1_snap_and_merge_witness :
    merge_chord_and_lyric_lines "C       G       Am" "Amazing grace how sweet" =
        "[C]Amazing [G]grace how [Am]sweet" ∧
      snap_to_word_boundary 0 [] = 0 :=
  ⟨(C1_snap_and_merge 0 [] (Or.inl rfl)).1, (C1_snap_and_merge 0 [] (Or.inl rfl)).2.2⟩

/-!
## C2 — the chord-token grammar
-/

/-- C2 counterexample: `is_chord_token "Cbarbar"` is true, but stripping a
single trailing `"bar"` suffix leaves `"Cbar"`, which does not match the
chord grammar — so "true iff the string after stripping a trailing `bar`
suffix matches the grammar" fails at `"Cbarbar"`. -/
theorem C2_chord_token_counterexample :
    is_chord_token "Cbarbar" = true ∧
      chordGrammar (claimStripBar "Cbarbar".data) = false := by
  decide

/-- C2 amended: `is_chord_token` is true iff the token matches the chord
grammar after the code's two-step `bar`-stripping (one strip only when the
token is longer than 3 characters, then a second unconditional strip); the
listed examples behave as claimed. -/
theorem C2_chord_token_grammar :
    (∀ t : String, is_chord_token t = chordGrammar (codeStripBar t.data)) ∧
      is_chord_token "G" = true ∧ is_chord_token "Am7" = true ∧
      is_chord_token "F#/C#" = true ∧ is_chord_token "Bbar" = true ∧
      is_chord_token "Csus4" = true ∧ is_chord_token "Word" = false ∧
      is_chord_token "Verse" = false ∧ is_chord_token "1" = false :=
  ⟨fun _ => rfl, by decide, by decide, by decide, by decide, by decide,
    by decide, by decide, by decide⟩

/-!
## C4 — key detection

`most_common_first` returns the first element of the tally sequence whose
count is maximal; this is proved below and used to state the amended claim.
-/

theorem mcfGo_find (l : List String) :
    ∀ (rest : List String) (b : String),
      mcfGo l (some b) rest =
        (b :: rest).find?
          (fun x => l.count x = ((b :: rest).map l.count).foldr max 0) := by
  intro rest
  induction rest with
  | nil =>
    intro b
    show some b = _
    have hbT : (decide (l.count b = ([b].map l.count).foldr max 0)) = true := by simp
    simp only [List.find?_cons, hbT]
  | cons x rest ih =>
    intro b
    show mcfGo l (if l.count x > l.count b then some x else some b) rest = _
    by_cases hc : l.count x > l.count b
    · rw [if_pos hc, ih x]
      have hM : ((b :: x :: rest).map l.count).foldr max 0 =
          ((x :: rest).map l.count).foldr max 0 := by
        simp only [List.map_cons, List.foldr_cons]
        exact Nat.max_eq_right (le_trans (le_of_lt hc) (Nat.le_max_left _ _))
      rw [hM]
      have hxle : l.count x ≤ ((x :: rest).map l.count).foldr max 0 := by
        simp only [List.map_cons, List.foldr_cons]
        exact Nat.le_max_left _ _
      have hbF : (decide (l.count b = ((x :: rest).map l.count).foldr max 0)) = false := by
        simp only [decide_eq_false_iff_not]
        omega
      conv_rhs => rw [List.find?_cons]
      simp only [hbF]
    · rw [if_neg hc, ih b]
      push_neg at hc
      have hM : ((b :: x :: rest).map l.count).foldr max 0 =
          ((b :: rest).map l.count).foldr max 0 := by
        simp only [List.map_cons, List.foldr_cons]
        rw [← Nat.max_assoc, Nat.max_eq_left hc]
      rw [hM]
      have hble : l.count b ≤ ((b :: rest).map l.count).foldr max 0 := by
        simp only [List.map_cons, List.foldr_cons]
        exact Nat.le_max_left _ _
      by_cases hb : l.count b = ((b :: rest).map l.count).foldr max 0
      · have hbT : (decide (l.count b = ((b :: rest).map l.count).foldr max 0)) = true := by
          simp only [decide_eq_true_eq]; exact hb
        conv_lhs => rw [List.find?_cons]
        conv_rhs => rw [List.find?_cons]
        simp only [hbT]
      · have hbF : (decide (l.count b = ((b :: rest).map l.count).foldr max 0)) = false := by
          simp only [decide_eq_false_iff_not]; exact hb
        have hxF : (decide (l.count x = ((b :: rest).map l.count).foldr max 0)) = false := by
          simp only [decide_eq_false_iff_not]
          omega
        conv_lhs => rw [List.find?_cons]
        conv_rhs => rw [List.find?_cons, List.find?_cons]
        simp only [hbF, hxF]

theorem most_common_first_find (l : List String) :
    most_common_first l = l.find? (fun x => l.count x = maxCnt l) := by
  cases l with
  | nil => rfl
  | cons x rest =>
    show mcfGo (x :: rest) (some x) rest = _
    rw [mcfGo_find (x :: rest) rest x]
    rfl

/-- C4 counterexample: on a song whose bracket groups are `[Cb]`, `[Cb]`,
`[Banana]`, `[D]`, the claim's reading (tally every bracketed chord by its
root) yields `"Cb"`, but `detect_key` yields `"B"` — it skips `Cb` (absent
from `NOTE_TO_INDEX`) and counts the `B` of `[Banana]`, which is not a
bracketed chord. -/
theorem C4_key_counterexample :
    detect_key cexKeySections = "B" ∧ claimDetectKey cexKeySections = "Cb" := by
  decide

/-- C4 amended: `detect_key` tallies every occurrence of `[` followed by a
root letter and optional accidental (regardless of the rest of the bracket
content) whose name is in the note table, and reports the first root of
maximal count in scan order (`List.find?` below), defaulting to `"C"`; the
C, G, C, Am, C example detects `"C"`. -/
theorem C4_detect_key :
    (∀ sections : List Section,
      detect_key sections =
        ((collectRoots sections).find?
          (fun r => (collectRoots sections).count r =
            maxCnt (collectRoots sections))).getD "C") ∧
      detect_key keyExampleSections = "C" := by
  constructor
  · intro sections
    show (match most_common_first (collectRoots sections) with
          | some r => r
          | none => "C") = _
    rw [most_common_first_find]
    cases (collectRoots sections).find?
        (fun r => (collectRoots sections).count r = maxCnt (collectRoots sections)) with
    | none => rfl
    | some r => rfl
  · decide

/-!
## C7 — section labels vs. chords
-/

/-- C7: a bracketed line whose content is a chord token is never a section
label; a loose bracket match whose trailing text is longer than 10
characters is rejected; `"[Am]"` is no label while `"[Chorus]"` is. -/
theorem C7_section_label (s : String) (inner after : List Char)
    (h : bracketContent (pyStripL s.data) = some (inner, after)) :
    (is_chord_tokenL (pyStripL inner) = true → parse_section_label s = none) ∧
      ((pyStripL after).length > 10 → parse_section_label s = none) ∧
      parse_section_label "[Am]" = none ∧
      parse_section_label "[Chorus]" = some ("chorus", "Chorus") := by
  refine ⟨?_, ?_, by decide, by decide⟩
  · intro hch
    have hbc : bracketIsChord (pyStripL inner) = true := by
      simp [bracketIsChord, hch]
    unfold parse_section_label
    simp only [h]
    by_cases hsp : onlySpaces after = true
    · simp [hsp, hbc]
    · simp [hsp, hbc]
  · intro hlen
    have hsp : onlySpaces after = false := by
      cases ho : onlySpaces after
      · rfl
      · have := pyStripL_of_all_space after ho
        rw [this] at hlen
        simp at hlen
    unfold parse_section_label
    simp only [h]
    rw [if_neg (show ¬ onlySpaces after = true by simp [hsp])]
    by_cases hbc : bracketIsChord (pyStripL inner) = true
    · rw [if_pos hbc]
    · rw [if_neg hbc, if_pos hlen]

/-- C7 witness: the theorem applied to the line `"[Am] x"`. -/
theorem C7_section_label_witness :
    parse_section_label "[Am] x" = none ∧
      parse_section_label "[Chorus]" = some ("chorus", "Chorus") :=
  ⟨(C7_section_label "[Am] x" "Am".data " x".data (by decide)).1 (by decide),
    (C7_section_label "[Am] x" "Am".data " x".data (by decide)).2.2.2⟩

/-!
## C3 — the chord-file threshold
-/

/-- C3: a document is a chord file iff it has a non-empty line and the
fraction of its non-empty lines that are chord lines or carry inline
ChordPro exceeds 3/20; a 20-line document with 3 qualifying lines (15 %) is
rejected and yields no song, while 4 of 25 (16 %) passes. -/
theorem C3_chord_file_threshold :
    (∀ lines : List String,
      is_chord_file lines = true ↔
        0 < (lines.filter (fun l => !(pyStripS l).isEmpty)).length ∧
          (3 : ℚ) / 20 <
            (((lines.filter (fun l => !(pyStripS l).isEmpty)).filter
                (fun l => is_chord_line l || has_inline_chordpro l)).length : ℚ) /
              ((lines.filter (fun l => !(pyStripS l).isEmpty)).length : ℚ)) ∧
      is_chord_file doc15 = false ∧
      parse_chord_file text15 "song.docx" = none ∧
      is_chord_file doc16 = true := by
  refine ⟨?_, by decide, by decide, by decide⟩
  intro lines
  unfold is_chord_file
  by_cases hne : (lines.filter (fun l => !(pyStripS l).isEmpty)).isEmpty = true
  · rw [if_pos hne]
    rw [List.isEmpty_iff] at hne
    simp [hne]
  · rw [if_neg hne]
    rw [Bool.not_eq_true, List.isEmpty_eq_false_iff_exists_mem] at hne
    have hn : 0 < (lines.filter (fun l => !(pyStripS l).isEmpty)).length := by
      obtain ⟨x, hx⟩ := hne
      exact List.length_pos.mpr (List.ne_nil_of_mem hx)
    rw [decide_eq_true_eq]
    constructor
    · intro hgt
      refine ⟨hn, ?_⟩
      rw [div_lt_div_iff₀ (by norm_num) (by exact_mod_cast hn)]
      exact_mod_cast by omega
    · rintro ⟨-, hq⟩
      rw [div_lt_div_iff₀ (by norm_num) (by exact_mod_cast hn)] at hq
      have : (3 : ℚ) * (lines.filter (fun l => !(pyStripS l).isEmpty)).length <
          20 * ((lines.filter (fun l => !(pyStripS l).isEmpty)).filter
            (fun l => is_chord_line l || has_inline_chordpro l)).length := by
        linarith
      exact_mod_cast by exact_mod_cast this

/-!
## C8 — section clean-up invariants
-/

/-- The kept-line relation of the blank collapse: no two adjacent kept
lines are both blank. -/
def noDoubleBlank (a b : String) : Prop := ¬(a = "" ∧ b = "")

theorem collapseStep_ne_nil (acc : List String) (x : String) (h : acc ≠ []) :
    collapseStep acc x ≠ [] := by
  unfold collapseStep
  split
  · exact h
  · simp

theorem collapseBlanks_head_aux (l : List String) :
    ∀ acc : List String, acc ≠ [] →
      (l.foldl collapseStep acc).head? = acc.head? := by
  induction l with
  | nil => intro acc _; rfl
  | cons x xs ih =>
    intro acc hacc
    rw [List.foldl_cons, ih _ (collapseStep_ne_nil acc x hacc)]
    unfold collapseStep
    split
    · rfl
    · exact List.head?_append_of_ne_nil _ hacc

theorem collapseStep_nil (x : String) : collapseStep [] x = [x] := by
  simp [collapseStep]

theorem collapseBlanks_head (l : List String) :
    (collapseBlanks l).head? = l.head? := by
  cases l with
  | nil => rfl
  | cons x xs =>
    unfold collapseBlanks
    rw [List.foldl_cons, collapseStep_nil,
      collapseBlanks_head_aux xs [x] (by simp)]
    rfl

theorem collapseBlanks_getLast (l : List String) (a : String)
    (hl : l.getLast? = some a) (ha : a ≠ "") :
    (collapseBlanks l).getLast? = some a := by
  have hne : l ≠ [] := by
    intro he; rw [he] at hl; simp at hl
  have hdecomp : l.dropLast ++ [a] = l := by
    have h2 := List.dropLast_append_getLast hne
    have h3 : l.getLast hne = a := by
      rw [List.getLast?_eq_getLast l hne] at hl
      exact Option.some_inj.mp hl
    rw [h3] at h2
    exact h2
  unfold collapseBlanks
  rw [← hdecomp, List.foldl_append, List.foldl_cons, List.foldl_nil]
  unfold collapseStep
  rw [if_neg (by simp [ha])]
  exact List.getLast?_concat _

theorem collapseBlanks_chain_aux (l : List String) :
    ∀ acc : List String, List.Chain' noDoubleBlank acc →
      List.Chain' noDoubleBlank (l.foldl collapseStep acc) := by
  induction l with
  | nil => intro acc h; exact h
  | cons x xs ih =>
    intro acc hacc
    rw [List.foldl_cons]
    apply ih
    unfold collapseStep
    by_cases hcond : (x = "" && !acc.isEmpty && acc.getLast? = some "") = true
    · rw [if_pos hcond]; exact hacc
    · rw [if_neg hcond]
      rw [List.chain'_append]
      refine ⟨hacc, List.chain'_singleton x, ?_⟩
      intro y hy z hz
      rw [List.head?_cons, Option.mem_def, Option.some_inj] at hz
      subst hz
      intro hyz
      apply hcond
      have hne : acc ≠ [] := by
        intro he; rw [he] at hy; simp at hy
      rw [Option.mem_def] at hy
      have hy2 : acc.getLast? = some "" := by rw [← hyz.1]; exact hy
      simp [hyz.2, hy2, List.isEmpty_iff, hne]

theorem collapseBlanks_chain (l : List String) :
    List.Chain' noDoubleBlank (collapseBlanks l) :=
  collapseBlanks_chain_aux l [] List.chain'_nil

theorem cleanLines_spec (l : List String) (h : cleanLines l ≠ []) :
    (cleanLines l).head? ≠ some "" ∧ (cleanLines l).getLast? ≠ some "" ∧
      List.Chain' noDoubleBlank (cleanLines l) := by
  unfold cleanLines at h ⊢
  have hm : (dropTrailingBlanks l).dropWhile (fun s => s = "") ≠ [] := by
    intro he
    rw [he] at h
    exact h rfl
  refine ⟨?_, ?_, collapseBlanks_chain _⟩
  · rw [collapseBlanks_head]
    intro hh
    have := head?_dropWhile (fun s => s = "") (dropTrailingBlanks l) "" hh
    simp at this
  · obtain ⟨b, hb⟩ : ∃ b,
        ((dropTrailingBlanks l).dropWhile (fun s => s = "")).getLast? = some b := by
      cases hg : ((dropTrailingBlanks l).dropWhile (fun s => s = "")).getLast? with
      | none =>
        rw [List.getLast?_eq_none_iff] at hg
        exact absurd hg hm
      | some b => exact ⟨b, rfl⟩
    have hlast : ((dropTrailingBlanks l).dropWhile (fun s => s = "")).getLast? =
        (dropTrailingBlanks l).getLast? := getLast?_dropWhile _ _ hm
    have h2 : (dropTrailingBlanks l).getLast? = some b := by rw [← hlast]; exact hb
    have h3 : (l.reverse.dropWhile (fun s => s = "")).head? = some b := by
      rw [← List.getLast?_reverse]
      exact h2
    have hbne : b ≠ "" := by
      have := head?_dropWhile (fun s => s = "") l.reverse b h3
      simpa using this
    rw [collapseBlanks_getLast _ b hb hbne]
    intro hc
    exact hbne (Option.some_inj.mp hc)

theorem finalize_spec (title : String) (secs : List Section) (lastSec : Section)
    (song : Song) (h : finalize title secs lastSec = some song) :
    song.sections ≠ [] ∧ ∀ sec ∈ song.sections, sec.lines ≠ [] ∧
      sec.lines.head? ≠ some "" ∧ sec.lines.getLast? ≠ some "" ∧
      List.Chain' noDoubleBlank sec.lines := by
  simp only [finalize] at h
  split at h
  · exact absurd h (by simp)
  · rename_i hne
    have hsong : song =
        ⟨title,
          detect_key (((flushLast secs lastSec).map cleanSection).filter
            (fun s => !s.lines.isEmpty)),
          ((flushLast secs lastSec).map cleanSection).filter
            (fun s => !s.lines.isEmpty)⟩ :=
      (Option.some_inj.mp h).symm
    subst hsong
    constructor
    · intro he
      apply hne
      rw [List.isEmpty_iff]
      exact he
    · intro sec hsec
      obtain ⟨hmem, hpred⟩ := List.mem_filter.mp hsec
      obtain ⟨orig, _, hcs⟩ := List.mem_map.mp hmem
      have hlines : sec.lines = cleanLines orig.lines := by
        rw [← hcs]
        rfl
      have hlne : sec.lines ≠ [] := by
        simpa using hpred
      rw [hlines] at hlne ⊢
      exact ⟨hlne, cleanLines_spec orig.lines hlne⟩

/-- C8: every section of a parsed song has at least one line, its line list
has no leading or trailing blank markers and no two consecutive blank
markers, and a document whose post-processing leaves zero sections yields
no song (so a returned song always has at least one section). -/
theorem C8_parse_invariants (text filename : String) (song : Song)
    (h : parse_chord_file text filename = some song) :
    song.sections ≠ [] ∧ ∀ sec ∈ song.sections, sec.lines ≠ [] ∧
      sec.lines.head? ≠ some "" ∧ sec.lines.getLast? ≠ some "" ∧
      List.Chain' noDoubleBlank sec.lines := by
  simp only [parse_chord_file] at h
  split at h
  · exact absurd h (by simp)
  · exact finalize_spec _ _ _ _ h

/-- C8 witness: the theorem applied to a concrete chord chart. -/
theorem C8_parse_invariants_witness :
    parse_chord_file witnessText "f.docx" =
        some ⟨"Amazing Song", "C", [⟨"verse", "", ["[C]la [G][Am]la la"]⟩]⟩ ∧
      (⟨"Amazing Song", "C", [⟨"verse", "", ["[C]la [G][Am]la la"]⟩]⟩ : Song).sections ≠ [] :=
  ⟨by decide, (C8_parse_invariants witnessText "f.docx" _ (by decide)).1⟩

/-!
## Reconciliation lemmas
-/

theorem lexLe_total : ∀ a b : List Char, lexLe a b = true ∨ lexLe b a = true := by
  intro a
  induction a with
  | nil => intro b; left; rfl
  | cons x xs ih =>
    intro b
    cases b with
    | nil => right; rfl
    | cons y ys =>
      simp only [lexLe]
      by_cases hxy : x = y
      · subst hxy
        rw [if_pos rfl, if_pos rfl]
        exact ih ys
      · rw [if_neg hxy, if_neg (Ne.symm hxy)]
        rcases lt_or_gt_of_ne hxy with h | h
        · left; simpa using h
        · right; simpa using h

theorem lexLe_trans : ∀ a b c : List Char,
    lexLe a b = true → lexLe b c = true → lexLe a c = true := by
  intro a
  induction a with
  | nil => intro b c _ _; rfl
  | cons x xs ih =>
    intro b c hab hbc
    cases b with
    | nil => simp [lexLe] at hab
    | cons y ys =>
      cases c with
      | nil => simp [lexLe] at hbc
      | cons z zs =>
        simp only [lexLe] at hab hbc ⊢
        by_cases hxy : x = y
        · subst hxy
          rw [if_pos rfl] at hab
          by_cases hyz : x = z
          · subst hyz
            rw [if_pos rfl] at hbc ⊢
            exact ih ys zs hab hbc
          · rw [if_neg hyz] at hbc ⊢
            exact hbc
        · rw [if_neg hxy] at hab
          have hlt : x < y := by simpa using hab
          by_cases hyz : y = z
          · subst hyz
            rw [if_neg hxy]
            simpa using hlt
          · rw [if_neg hyz] at hbc
            have hlt2 : y < z := by simpa using hbc
            have hxz : x < z := lt_trans hlt hlt2
            rw [if_neg (ne_of_lt hxz)]
            simpa using hxz

theorem titleLe_total (a b : Song) : titleLe a b = true ∨ titleLe b a = true :=
  lexLe_total _ _

theorem titleLe_trans {a b c : Song} (h1 : titleLe a b = true)
    (h2 : titleLe b c = true) : titleLe a c = true :=
  lexLe_trans _ _ _ h1 h2

theorem insertSorted_perm (x : Song) : ∀ l, (insertSorted x l).Perm (x :: l) := by
  intro l
  induction l with
  | nil => exact List.Perm.refl _
  | cons y ys ih =>
    simp only [insertSorted]
    split
    · exact (List.Perm.cons y ih).trans (List.Perm.swap x y ys)
    · exact List.Perm.refl _

theorem insertSorted_pairwise (x : Song) :
    ∀ l, List.Pairwise (fun a b => titleLe a b = true) l →
      List.Pairwise (fun a b => titleLe a b = true) (insertSorted x l) := by
  intro l
  induction l with
  | nil => intro _; exact List.pairwise_singleton _ _
  | cons y ys ih =>
    intro hp
    rw [List.pairwise_cons] at hp
    obtain ⟨hy, hys⟩ := hp
    simp only [insertSorted]
    by_cases hyx : titleLe y x = true
    · rw [if_pos hyx, List.pairwise_cons]
      refine ⟨?_, ih hys⟩
      intro z hz
      have hz2 : z ∈ x :: ys := (insertSorted_perm x ys).mem_iff.mp hz
      rcases List.mem_cons.mp hz2 with h | h
      · subst h; exact hyx
      · exact hy z h
    · rw [if_neg hyx, List.pairwise_cons]
      have hxy : titleLe x y = true := by
        rcases titleLe_total x y with h | h
        · exact h
        · exact absurd h hyx
      constructor
      · intro z hz
        rcases List.mem_cons.mp hz with h | h
        · subst h; exact hxy
        · exact titleLe_trans hxy (hy z h)
      · exact List.pairwise_cons.mpr ⟨hy, hys⟩

theorem sortByTitle_perm_aux :
    ∀ (l acc : List Song),
      (l.foldl (fun a x => insertSorted x a) acc).Perm (acc ++ l) := by
  intro l
  induction l with
  | nil => intro acc; simp
  | cons x xs ih =>
    intro acc
    rw [List.foldl_cons]
    refine (ih (insertSorted x acc)).trans ?_
    refine (List.Perm.append_right xs (insertSorted_perm x acc)).trans ?_
    simpa using List.perm_middle.symm

theorem sortByTitle_perm (l : List Song) : (sortByTitle l).Perm l := by
  simpa using sortByTitle_perm_aux l []

theorem sortByTitle_sorted_aux :
    ∀ (l acc : List Song), List.Pairwise (fun a b => titleLe a b = true) acc →
      List.Pairwise (fun a b => titleLe a b = true)
        (l.foldl (fun a x => insertSorted x a) acc) := by
  intro l
  induction l with
  | nil => intro acc h; exact h
  | cons x xs ih =>
    intro acc hacc
    rw [List.foldl_cons]
    exact ih _ (insertSorted_pairwise x acc hacc)

theorem sortByTitle_sorted (l : List Song) :
    List.Pairwise (fun a b => titleLe a b = true) (sortByTitle l) :=
  sortByTitle_sorted_aux l [] List.Pairwise.nil

theorem collectNew_aux (titles : List String) :
    ∀ (ps acc : List Song),
      ps.foldl (fun acc song =>
        if matchFound (normalize_title song.title) titles then acc
        else acc ++ [song]) acc
        = acc ++ ps.filter (fun s => !matchFound (normalize_title s.title) titles) := by
  intro ps
  induction ps with
  | nil => intro acc; simp
  | cons s ps ih =>
    intro acc
    rw [List.foldl_cons]
    by_cases hm : matchFound (normalize_title s.title) titles = true
    · rw [if_pos hm, ih]
      simp [List.filter_cons, hm]
    · rw [if_neg hm, ih]
      have hb : matchFound (normalize_title s.title) titles = false :=
        Bool.not_eq_true _ ▸ (by simpa using hm)
      simp [List.filter_cons, hb]

theorem collectNew_eq_filter (titles : List String) (ps : List Song) :
    collectNew titles ps
      = ps.filter (fun s => !matchFound (normalize_title s.title) titles) := by
  simpa using collectNew_aux titles ps []

theorem matchFound_setOf (ex : List Song) (s : Song) :
    matchFound (normalize_title s.title)
        (setOf (ex.map (fun e => normalize_title e.title)))
      = dupAgainstExisting ex s := by
  rw [Bool.eq_iff_iff]
  simp only [matchFound, dupAgainstExisting, Bool.or_eq_true, List.any_eq_true,
    decide_eq_true_eq]
  constructor
  · rintro (hc | ⟨et, hmem, hsub⟩)
    · rw [contains_iff_mem_str, mem_setOf] at hc
      obtain ⟨e, he, heq⟩ := List.mem_map.mp hc
      exact ⟨e, he, Or.inl (Or.inl heq.symm)⟩
    · rw [mem_setOf] at hmem
      obtain ⟨e, he, heq⟩ := List.mem_map.mp hmem
      subst heq
      rcases hsub with h1 | h2
      · exact ⟨e, he, Or.inl (Or.inr h1)⟩
      · exact ⟨e, he, Or.inr h2⟩
  · rintro ⟨e, he, ((heq | h1) | h2)⟩
    · left
      rw [contains_iff_mem_str, mem_setOf]
      exact List.mem_map.mpr ⟨e, he, heq.symm⟩
    · right
      exact ⟨normalize_title e.title,
        (mem_setOf _ _).mpr (List.mem_map.mpr ⟨e, he, rfl⟩), Or.inl h1⟩
    · right
      exact ⟨normalize_title e.title,
        (mem_setOf _ _).mpr (List.mem_map.mpr ⟨e, he, rfl⟩), Or.inr h2⟩

theorem applyForce_fst_aux (fsn : List String) :
    ∀ (ex : List Song) (acc : List Song × List String),
      (ex.foldl (fun st s =>
        let nt := normalize_title s.title
        if fsn.any (fun fs => pyIn fs nt || pyIn nt fs) then
          (st.1, st.2.filter (fun t => t ≠ nt))
        else (st.1 ++ [s], st.2)) acc).1
        = acc.1 ++ ex.filter (fun s => !(fsn.any (fun fs =>
            pyIn fs (normalize_title s.title) ||
            pyIn (normalize_title s.title) fs))) := by
  intro ex
  induction ex with
  | nil => intro acc; simp
  | cons s ex ih =>
    intro acc
    rw [List.foldl_cons]
    by_cases hm : fsn.any (fun fs => pyIn fs (normalize_title s.title) ||
        pyIn (normalize_title s.title) fs) = true
    · rw [if_pos hm, ih]
      simp [List.filter_cons, hm]
    · rw [if_neg hm, ih]
      have hb : fsn.any (fun fs => pyIn fs (normalize_title s.title) ||
          pyIn (normalize_title s.title) fs) = false := by simpa using hm
      simp [List.filter_cons, hb]

theorem applyForce_fst (fsn : List String) (ex : List Song) (t0 : List String) :
    (applyForce fsn ex t0).1
      = ex.filter (fun s => !(fsn.any (fun fs =>
          pyIn fs (normalize_title s.title) ||
          pyIn (normalize_title s.title) fs))) := by
  have h := applyForce_fst_aux fsn ex ([], t0)
  unfold applyForce
  rw [h]
  exact List.nil_append _

theorem setOfMap_any_frag (fs : List String) (e : Song) :
    (setOf (fs.map normalize_title)).any (fun f =>
        pyIn f (normalize_title e.title) || pyIn (normalize_title e.title) f)
      = fragMatches fs e := by
  rw [any_setOf, List.any_map]
  rfl

theorem mainReconcile_default (ex ps : List Song) :
    mainReconcile false [] ex ps =
      sortByTitle (ex ++ ps.filter (fun s => !dupAgainstExisting ex s)) := by
  unfold mainReconcile
  simp only [List.map_nil, Bool.not_false, Bool.true_and, if_neg]
  have hfs : setOf ([] : List String) = [] := rfl
  rw [hfs]
  simp only [List.isEmpty_nil, Bool.not_true, Bool.and_false, Bool.false_eq_true,
    if_false, if_neg]
  rw [collectNew_eq_filter]
  congr 1
  congr 1
  apply List.filter_congr
  intro s _
  rw [matchFound_setOf]

theorem mainReconcile_force (fs : List String) (ex ps : List Song)
    (hex : ex ≠ []) (hfs : fs ≠ []) :
    mainReconcile false fs ex ps =
      sortByTitle ((applyForce (setOf (fs.map normalize_title)) ex
          (setOf (ex.map (fun s => normalize_title s.title)))).1
        ++ collectNew (applyForce (setOf (fs.map normalize_title)) ex
          (setOf (ex.map (fun s => normalize_title s.title)))).2 ps) := by
  unfold mainReconcile
  have h1 : (setOf (fs.map normalize_title)).isEmpty = false := by
    rw [List.isEmpty_eq_false_iff_exists_mem]
    have hne := setOf_ne_nil (fs.map normalize_title) (by simpa using hfs)
    obtain ⟨x, hx⟩ := List.exists_mem_of_ne_nil _ hne
    exact ⟨x, hx⟩
  have h2 : ex.isEmpty = false := by
    rw [List.isEmpty_eq_false_iff_exists_mem]
    obtain ⟨x, hx⟩ := List.exists_mem_of_ne_nil _ hex
    exact ⟨x, hx⟩
  simp [h1, h2]

/-!
## C5, C9, C10 — default-mode reconciliation
-/

/-- C5: in default mode the result is a permutation of the preserved
existing entries plus exactly those parsed songs whose normalized title is
not equal to, contained in, or containing any existing normalized title,
and it is sorted by lower-cased title. -/
theorem C5_default_reconciliation (ex ps : List Song) :
    (mainReconcile false [] ex ps).Perm
        (ex ++ ps.filter (fun s => !dupAgainstExisting ex s)) ∧
      List.Pairwise (fun a b => titleLe a b = true) (mainReconcile false [] ex ps) := by
  rw [mainReconcile_default]
  exact ⟨sortByTitle_perm _, sortByTitle_sorted _⟩

/-- C9: duplicate detection never compares a fresh song against songs
accepted earlier in the same batch — two substring-related fresh songs that
match no existing entry are both appended. -/
theorem C9_no_batch_crosscheck (ex : List Song) (s1 s2 : Song)
    (h1 : dupAgainstExisting ex s1 = false)
    (h2 : dupAgainstExisting ex s2 = false)
    (_h3 : pyIn (normalize_title s1.title) (normalize_title s2.title) = true ∨
      pyIn (normalize_title s2.title) (normalize_title s1.title) = true) :
    (mainReconcile false [] ex [s1, s2]).Perm (ex ++ [s1, s2]) := by
  rw [mainReconcile_default]
  have hf : [s1, s2].filter (fun s => !dupAgainstExisting ex s) = [s1, s2] := by
    simp [List.filter_cons, h1, h2]
  rw [hf]
  exact sortByTitle_perm _

/-- C9 witness: two fresh songs with substring-related titles, no existing
match, both kept. -/
theorem C9_no_batch_crosscheck_witness :
    (mainReconcile false [] [⟨"Zzz", "C", []⟩]
        [⟨"Abc", "C", []⟩, ⟨"Abcd", "C", []⟩]).Perm
      ([⟨"Zzz", "C", []⟩] ++ [⟨"Abc", "C", []⟩, ⟨"Abcd", "C", []⟩]) :=
  C9_no_batch_crosscheck [⟨"Zzz", "C", []⟩] ⟨"Abc", "C", []⟩ ⟨"Abcd", "C", []⟩
    (by decide) (by decide) (Or.inl (by decide))

/-- C10: a fresh song whose normalized title is empty is discarded whenever
the catalog is non-empty, and an existing entry with an empty normalized
title causes every fresh song to be discarded. -/
theorem C10_empty_normalized_title :
    (∀ (ex : List Song) (s : Song), normalize_title s.title = "" → ex ≠ [] →
      (mainReconcile false [] ex [s]).Perm ex) ∧
    (∀ (ex : List Song) (s e : Song), e ∈ ex → normalize_title e.title = "" →
      (mainReconcile false [] ex [s]).Perm ex) := by
  constructor
  · intro ex s hs hex
    rw [mainReconcile_default]
    have hd : dupAgainstExisting ex s = true := by
      obtain ⟨e0, he0⟩ := List.exists_mem_of_ne_nil ex hex
      rw [dupAgainstExisting, List.any_eq_true]
      refine ⟨e0, he0, ?_⟩
      simp [hs, pyIn_empty]
    rw [show [s].filter (fun t => !dupAgainstExisting ex t) = [] by
      simp [List.filter_cons, hd]]
    rw [List.append_nil]
    exact sortByTitle_perm _
  · intro ex s e he hne
    rw [mainReconcile_default]
    have hd : dupAgainstExisting ex s = true := by
      rw [dupAgainstExisting, List.any_eq_true]
      refine ⟨e, he, ?_⟩
      simp [hne, pyIn_empty]
    rw [show [s].filter (fun t => !dupAgainstExisting ex t) = [] by
      simp [List.filter_cons, hd]]
    rw [List.append_nil]
    exact sortByTitle_perm _

/-- C10 witness: a punctuation-only fresh title is dropped against a
non-empty catalog, and an empty-normalized existing title swallows any
fresh song. -/
theorem C10_empty_normalized_title_witness :
    (mainReconcile false [] [⟨"Keep", "C", []⟩] [⟨"!!!", "C", []⟩]).Perm
        [⟨"Keep", "C", []⟩] ∧
      (mainReconcile false [] [⟨"???", "C", []⟩] [⟨"Fresh Song", "C", []⟩]).Perm
        [⟨"???", "C", []⟩] :=
  ⟨C10_empty_normalized_title.1 [⟨"Keep", "C", []⟩] ⟨"!!!", "C", []⟩
      (by decide) (by decide),
    C10_empty_normalized_title.2 [⟨"???", "C", []⟩] ⟨"Fresh Song", "C", []⟩
      ⟨"???", "C", []⟩ (by decide) (by decide)⟩

/-!
## C6 — force-song reimport
-/

/-- C6: the `--force-song` removal drops an existing entry exactly when its
normalized title contains or is contained by some supplied fragment's
normalized title, and every non-matching entry survives to the final
catalog. -/
theorem C6_force_song_mode :
    (∀ (fs : List String) (ex : List Song) (t0 : List String),
      forceKept (setOf (fs.map normalize_title)) ex t0 =
        ex.filter (fun e => !fragMatches fs e)) ∧
    (∀ (fs : List String) (ex ps : List Song) (e : Song),
      e ∈ ex → fs ≠ [] → fragMatches fs e = false →
      e ∈ mainReconcile false fs ex ps) := by
  constructor
  · intro fs ex t0
    unfold forceKept
    rw [applyForce_fst]
    apply List.filter_congr
    intro e _
    rw [setOfMap_any_frag]
  · intro fs ex ps e he hfs hfrag
    rw [mainReconcile_force fs ex ps (List.ne_nil_of_mem he) hfs]
    rw [(sortByTitle_perm _).mem_iff]
    apply List.mem_append_left
    rw [applyForce_fst]
    rw [List.mem_filter]
    refine ⟨he, ?_⟩
    rw [setOfMap_any_frag, hfrag]
    rfl

/-- C6 witness: the fragment `"the vow"` removes exactly the matching entry
from the preserved list, and a non-matching entry survives reconciliation. -/
theorem C6_force_song_mode_witness :
    forceKept (setOf (["The Vow"].map normalize_title))
        [⟨"The Vow – Cody Carnes", "C", []⟩, ⟨"Other", "C", []⟩] ["x"] =
      [⟨"Other", "C", []⟩] ∧
    (⟨"Other", "C", []⟩ : Song) ∈ mainReconcile false ["The Vow"]
      [⟨"The Vow – Cody Carnes", "C", []⟩, ⟨"Other", "C", []⟩] [] := by
  constructor
  · rw [C6_force_song_mode.1 ["The Vow"]
      [⟨"The Vow – Cody Carnes", "C", []⟩, ⟨"Other", "C", []⟩] ["x"]]
    decide
  · exact C6_force_song_mode.2 ["The Vow"]
      [⟨"The Vow – Cody Carnes", "C", []⟩, ⟨"Other", "C", []⟩] [] ⟨"Other", "C", []⟩
      (by decide) (by decide) (by decide)

end SongPrinter
